import Mathlib

/-!
Verification of the qoscloud adaptation engine against its specification.

The Python sources under `cloud_controller/` are embedded shallowly:
pure functions become Lean functions, in-place mutation becomes explicit
state passing, and code that can raise (`assert`, `KeyError`,
`AttributeError`, `IndexError`) returns `Option`, with `none` standing
for the raised exception.  Components of the repository that are not in
the provided sources (the knowledge model classes, the measurement
aggregator, the multipredictor and the scenario generator) are modelled
from the specification and marked as such in their doc comments.
-/

namespace QosCloud

/-- Modelled from the spec: `DEFAULT_HARDWARE_ID` is a configuration
constant of the `cloud_controller` package (not in the provided sources).
Its concrete value is immaterial; the code only compares hardware ids
against it. -/
def DEFAULT_HARDWARE_ID : String := "default_hw"

/-- Modelled from the spec: a QoS requirement attached to a probe is
either a `TimeContract` (percentile, time-limit) or a
`ThroughputContract` (mean-request-time bound).  The contract classes
live in `cloud_controller/knowledge/model.py`, which is not in the
provided sources.  Numeric values are modelled as integers. -/
inductive QoSRequirement where
  | time (timeLimit : Int) (percentile : Int)
  | throughput (meanRequestTime : Int)
deriving DecidableEq, Repr

/-- Modelled from the spec: a probe (`cloud_controller/knowledge/model.py`,
not in the provided sources) is a measurable workload unit identified by
an alias, belonging to a component (`componentId` is the id of that
component, the Python `probe.component.id` back reference) and carrying
a list of QoS requirements. -/
structure Probe where
  alias_ : String
  componentId : String
  requirements : List QoSRequirement
deriving DecidableEq, Repr

/-- Modelled from the spec: a component of an application
(`cloud_controller/knowledge/model.py`, not in the provided sources),
with its id and its probes. -/
structure AppComponent where
  id : String
  probes : List Probe
deriving DecidableEq, Repr

/-- Modelled from the spec: an application
(`cloud_controller/knowledge/model.py`, not in the provided sources):
a named collection of components, flagged `complete` once QoS contracts
are attached (`app.is_complete`). -/
structure Application where
  name : String
  components : List AppComponent
  isComplete : Bool
deriving DecidableEq, Repr

/-- Modelled from the spec: `MeasurementAggregator.compose_measurement_name`
(`cloud_controller/aggregator/measurement_aggregator.py`, not in the
provided sources).  The spec says the canonical measurement name is the
hw_id joined with the probe alias list; the persisted layout joins
names with `-`. -/
def compose_measurement_name (hwId : String) (combination : List String) : String :=
  String.intercalate "-" (hwId :: combination)

/-- Modelled from the spec: the state of the `MeasurementAggregator`
(`cloud_controller/aggregator/measurement_aggregator.py`, not in the
provided sources).  `hasMeasurement` tells whether a measurement is
recorded under a name; `timeAtPercentile` and `meanRunningTime` are the
abstract contents of the stored measurements. -/
structure MeasurementAggregatorModel where
  hasMeasurement : String → Bool
  timeAtPercentile : String → Int → Int
  meanRunningTime : String → Int

/-- Modelled from the spec: `MeasurementAggregator.predict_time` performs
a percentile lookup on the stored measurement and compares it with the
time limit of a `TimeContract`. -/
def MeasurementAggregatorModel.predict_time (ma : MeasurementAggregatorModel)
    (probeName : String) (timeLimit : Int) (percentile : Int) : Bool :=
  ma.timeAtPercentile probeName percentile ≤ timeLimit

/-- Modelled from the spec: `MeasurementAggregator.predict_throughput`
compares the running mean request time of the stored measurement with
the `mean_request_time` bound of a `ThroughputContract` and returns
`mean ≤ max_mean_time`. -/
def MeasurementAggregatorModel.predict_throughput (ma : MeasurementAggregatorModel)
    (probeName : String) (maxMeanTime : Int) : Bool :=
  ma.meanRunningTime probeName ≤ maxMeanTime

/-- Modelled from the spec: the statistical `MultiPredictor`
(`cloud_controller/aggregator/multipredictor.py`, not in the provided
sources).  The spec treats it as a black-box strategy; `predictTime` is
its abstract boolean answer for a `TimeContract`, and `predictedMean` is
the mean request time it predicts for a combination on a hardware
configuration. -/
structure MultiPredictorModel where
  predictTime : String → List String → Int → Int → Bool
  predictedMean : String → List String → Int

/-- Modelled from the spec: `MultiPredictor.predict_throughput` compares
the predicted mean request time with the `max_value` bound and returns
`mean ≤ max_value`. -/
def MultiPredictorModel.predict_throughput (mp : MultiPredictorModel)
    (hwId : String) (combination : List String) (maxValue : Int) : Bool :=
  mp.predictedMean hwId combination ≤ maxValue

/-- The mutable state of `PerformanceDataAggregator`
(`performance_data_aggregator.py`): the registered applications map, the
probe indices `_probes_by_id` and `_probes_by_component` (Python dicts,
modelled as functions with `none` for an absent key; the value of
`_probes_by_component` is a Python set of probe aliases, modelled as a
list), and the two predictor submodules. -/
structure AggregatorState where
  applications : String → Option Application
  probesById : String → Option Probe
  probesByComponent : String → Option (List String)
  ma : MeasurementAggregatorModel
  mp : MultiPredictorModel

/-- Pointwise update of a map modelled as a function. -/
def updMap {α : Type} (m : String → Option α) (k : String) (v : α) : String → Option α :=
  fun k' => if k' = k then some v else m k'

/-! ### `PerformanceDataAggregator._generate_combinations`

Source: `performance_data_aggregator.py`, lines 46-78.  The inner
generator `generate_probe_combinations` enumerates, for a probe list and
a target size, all ways to extend `combination` to length `size` by
appending blocks of repeated probes in list order.  `size` is an `Int`
because Python computes `count - 1`, which can be negative (a negative
size yields nothing, like Python's empty `range`).  Python's
`if len(combination) == size: yield; return` precedes its emptiness
check on `probes`, so the size test is repeated in both list patterns
here. -/

def generate_probe_combinations : List String → Int → List String → List (List String)
  | [], size, combination =>
    if (combination.length : Int) = size then [combination] else []
  | p :: rest, size, combination =>
    if (combination.length : Int) = size then [combination]
    else
      (List.range (size + 1).toNat).flatMap fun i =>
        if (combination.length : Int) + i ≤ size then
          generate_probe_combinations rest size (combination ++ List.replicate i p)
        else []

/-- Source: `performance_data_aggregator.py`, lines 58-73
(`generate_component_combinations`): walks the component→count tuples,
reducing the main component's count by one, and extends the accumulated
combination with every probe combination of each component.
`pbc` stands for the `_probes_by_component` index (the Python code
indexes the dict directly; callers only pass registered component ids,
so the total function view is faithful there). -/
def generate_component_combinations (pbc : String → List String) (main_component : String) :
    List (String × Int) → List String → List (List String)
  | [], combination => [combination]
  | (component, count) :: rest, combination =>
    let count' := if component = main_component then count - 1 else count
    let probes := pbc component
    (generate_probe_combinations probes count' []).flatMap fun probe_combination =>
      generate_component_combinations pbc main_component rest (combination ++ probe_combination)

/-- Source: `performance_data_aggregator.py`, lines 46-78
(`_generate_combinations`): for every choice of main component, for
every component combination, prepend every probe of the main component. -/
def generate_combinations (pbc : String → List String)
    (assignment : List (String × Int)) : List (List String) :=
  assignment.flatMap fun ck =>
    (generate_component_combinations pbc ck.1 assignment []).flatMap fun full_combination =>
      (pbc ck.1).map fun probe_id => probe_id :: full_combination

/-- Specification-side description of the tail of a generated
combination: it splits into consecutive segments, one per assignment
entry in order, where the segment of `(c, k)` has length `k` (length
`k - 1` for the chosen main component) and draws its elements, with
replacement, from `c`'s probe set. -/
def segments_ok (pbc : String → List String) (main : String) :
    List (String × Int) → List String → Prop
  | [], rest => rest = []
  | (c, k) :: tl, rest =>
    ∃ seg tail_, rest = seg ++ tail_ ∧
      (seg.length : Int) = (if c = main then k - 1 else k) ∧
      (∀ x ∈ seg, x ∈ pbc c) ∧ segments_ok pbc main tl tail_

/-! ### `PerformanceDataAggregator.Predict`

Source: `performance_data_aggregator.py`, lines 80-127.  The protobuf
request carries a hardware id and a list of `(component_id, count)`
pairs.  The scenario-generator side effect (`increase_count`, whose
implementation is not in the provided sources) is modelled by returning
the requested `(hw_id, probe_id, size)` triple.  `Prediction(result=b)`
becomes `ok b request`; a raised exception (failed `assert`, `KeyError`,
`IndexError`) becomes `error`.  The module constant
`STATISTICAL_PREDICTION_ENABLED` is passed as the `statEnabled`
parameter. -/

/-- A `Predict` request (`predictor_pb.Assignment`): hardware id plus
`(component_id, count)` pairs. -/
structure AssignmentPb where
  hwId : String
  components : List (String × Int)
deriving DecidableEq, Repr

/-- The outcome of `Predict`: the returned `Prediction.result` together
with the `increase_count(hw_id, combination[0], len(combination))`
request issued to the scenario generator, if any; `error` stands for a
raised exception. -/
inductive PredictOutcome where
  | ok (result : Bool) (request : Option (String × String × Nat))
  | error
deriving DecidableEq, Repr

/-- Source: `performance_data_aggregator.py`, lines 39-44
(`assignment_from_pb`): builds the component→count dict, asserting that
every component is registered.  Python dict insertion is `upsert`:
a repeated key keeps its position and takes the new count. -/
def upsert : List (String × Int) → String → Int → List (String × Int)
  | [], k, v => [(k, v)]
  | (k', v') :: tl, k, v => if k' = k then (k, v) :: tl else (k', v') :: upsert tl k v

/-- Source: `performance_data_aggregator.py`, lines 39-44; `none` models
the failed `assert component_pb.component_id in self._probes_by_component`. -/
def assignment_from_pb (st : AggregatorState) (components : List (String × Int)) :
    Option (List (String × Int)) :=
  components.foldlM
    (fun acc ck =>
      if (st.probesByComponent ck.1).isNone then none else some (upsert acc ck.1 ck.2))
    []

/-- Source: `performance_data_aggregator.py`, lines 96-123: evaluation of
one QoS requirement of the controlled probe inside the `Predict` loop.
When a stored measurement exists the `MeasurementAggregator` is
consulted with the measurement name; otherwise the statistical
`MultiPredictor` is consulted with the hardware id and the combination.
Both throughput branches receive `requirement.mean_request_time` as the
bound. -/
def predict_requirement (st : AggregatorState) (hwId measurement : String)
    (measured : Bool) (combination : List String) : QoSRequirement → Bool
  | .time timeLimit percentile =>
    if measured then st.ma.predict_time measurement timeLimit percentile
    else st.mp.predictTime hwId combination timeLimit percentile
  | .throughput meanRequestTime =>
    if measured then st.ma.predict_throughput measurement meanRequestTime
    else st.mp.predict_throughput hwId combination meanRequestTime

/-- Source: `performance_data_aggregator.py`, lines 89-127: the loop over
generated combinations.  An empty combination makes Python raise
(`combination[0]`), hence `error`; a missing `_probes_by_id` entry is a
`KeyError`.  On the first combination that is unmeasured (with
statistical prediction disabled) or fails a requirement, the scenario
count is increased and `Prediction(result=False)` is returned. -/
def predict_loop (st : AggregatorState) (statEnabled : Bool) (hwId : String) :
    List (List String) → PredictOutcome
  | [] => .ok true none
  | combination :: rest =>
    let measurement := compose_measurement_name hwId combination
    let measured := st.ma.hasMeasurement measurement
    match combination with
    | [] => .error
    | head :: _ =>
      if ¬statEnabled ∧ ¬measured then
        .ok false (some (hwId, head, combination.length))
      else
        match st.probesById head with
        | none => .error
        | some probe =>
          if probe.requirements.all (predict_requirement st hwId measurement measured combination) then
            predict_loop st statEnabled hwId rest
          else
            .ok false (some (hwId, head, combination.length))

/-- Source: `performance_data_aggregator.py`, lines 80-127 (`Predict`).
The trivial case (single component, count 1, default hardware) asserts
registration and returns `True` without touching the measurement store
or the predictor; otherwise the request is converted to an assignment
and every generated combination is checked. -/
def Predict (st : AggregatorState) (statEnabled : Bool) (request : AssignmentPb) :
    PredictOutcome :=
  if request.components.length = 1 ∧ (request.components.headI).2 = 1 ∧
      request.hwId = DEFAULT_HARDWARE_ID then
    if (st.probesByComponent (request.components.headI).1).isSome then .ok true none
    else .error
  else
    match assignment_from_pb st request.components with
    | none => .error
    | some assignment =>
      predict_loop st statEnabled request.hwId
        (generate_combinations (fun c => (st.probesByComponent c).getD []) assignment)

/-- Specification-side description of the combinations on which the
`Predict` loop stops when statistical prediction is disabled: the
combination lacks a recorded measurement, or it is degenerate (empty, or
its controlled probe is not indexed), or some requirement of its
controlled probe fails against the stored measurement. -/
def combo_rejected (st : AggregatorState) (hwId : String) (combo : List String) : Bool :=
  let name := compose_measurement_name hwId combo
  if ¬st.ma.hasMeasurement name then true
  else
    match combo with
    | [] => true
    | head :: _ =>
      match st.probesById head with
      | none => true
      | some probe => ¬probe.requirements.all (predict_requirement st hwId name true combo)

/-! ### `PerformanceDataAggregator.JudgeApp`

Source: `performance_data_aggregator.py`, lines 197-243. -/

/-- The `JudgeResult` protobuf enum. -/
inductive JudgeResult where
  | NEEDS_DATA
  | REJECTED
  | MEASURED
  | ACCEPTED
deriving DecidableEq, Repr

/-- Source: `performance_data_aggregator.py`, lines 216-228: evaluation
of one requirement of a probe against its isolation measurement inside
the `JudgeApp` scan (always via the `MeasurementAggregator`). -/
def judge_requirement (ma : MeasurementAggregatorModel) (measurementName : String) :
    QoSRequirement → Bool
  | .time timeLimit percentile => ma.predict_time measurementName timeLimit percentile
  | .throughput meanRequestTime => ma.predict_throughput measurementName meanRequestTime

/-- Source: `performance_data_aggregator.py`, lines 210-230: the nested
loop over components and probes, flattened to the probe list.  For each
probe, first the isolation measurement at the default hardware id is
required (`NEEDS_DATA`), then every requirement must hold (`REJECTED`).
`none` means the scan fell through without returning. -/
def judge_scan (ma : MeasurementAggregatorModel) : List Probe → Option JudgeResult
  | [] => none
  | probe :: rest =>
    let measurementName := compose_measurement_name DEFAULT_HARDWARE_ID [probe.alias_]
    if ¬ma.hasMeasurement measurementName then some .NEEDS_DATA
    else if probe.requirements.all (judge_requirement ma measurementName) then
      judge_scan ma rest
    else some .REJECTED

/-- Specification-side description of one step of the `JudgeApp` scan:
the issue a probe raises, if any — `NEEDS_DATA` when its isolation
measurement at the default hardware id is missing, `REJECTED` when some
of its requirements fails against that measurement. -/
def probe_issue (ma : MeasurementAggregatorModel) (probe : Probe) : Option JudgeResult :=
  let name := compose_measurement_name DEFAULT_HARDWARE_ID [probe.alias_]
  if ¬ma.hasMeasurement name then some .NEEDS_DATA
  else if probe.requirements.all (judge_requirement ma name) then none
  else some .REJECTED

/-- Source: `performance_data_aggregator.py`, lines 239-242: the inner
re-registration loop over the probes of one component.  State:
`_probes_by_id`, `_probes_by_component`, and the Python loop variable
`probe` (which leaks across iterations; `stale` is its current value).
`none` models the failed `assert probe.alias in self._probes_by_id` or
the `KeyError` raised by `self._probes_by_component[probe.component.id].add`
when that key is absent. -/
def reregister_probes (pbId : String → Option Probe) (pbc : String → Option (List String))
    (stale : Option Probe) : List Probe →
    Option ((String → Option Probe) × (String → Option (List String)) × Option Probe)
  | [] => some (pbId, pbc, stale)
  | probe :: rest =>
    if (pbId probe.alias_).isNone then none
    else
      let pbId' := updMap pbId probe.alias_ probe
      match pbc probe.componentId with
      | none => none
      | some aliases =>
        reregister_probes pbId' (updMap pbc probe.componentId (aliases.insert probe.alias_))
          (some probe) rest

/-- Source: `performance_data_aggregator.py`, lines 237-242: the outer
re-registration loop over components.  The reset
`self._probes_by_component[probe.component.id] = set()` uses the loop
variable `probe` from *before* the inner loop runs, i.e. the last probe
of the previous component (or, for the first component, the last probe
bound by the judging scan); `stale = none` models the `NameError` when
no probe was ever bound. -/
def reregister_components (pbId : String → Option Probe) (pbc : String → Option (List String))
    (stale : Option Probe) : List AppComponent →
    Option ((String → Option Probe) × (String → Option (List String)))
  | [] => some (pbId, pbc)
  | component :: rest =>
    match stale with
    | none => none
    | some staleProbe =>
      let pbc' := updMap pbc staleProbe.componentId []
      match reregister_probes pbId pbc' stale component.probes with
      | none => none
      | some (pbId', pbc'', stale') => reregister_components pbId' pbc'' stale' rest

/-- Source: `performance_data_aggregator.py`, lines 197-243 (`JudgeApp`).
Returns the `JudgeReply` result together with the updated aggregator
state; `none` models an exception raised in the accepted-branch
re-registration. -/
def JudgeApp (st : AggregatorState) (app : Application) :
    Option (JudgeResult × AggregatorState) :=
  if (st.applications app.name).isNone then some (.NEEDS_DATA, st)
  else
    let probes := app.components.flatMap (·.probes)
    match judge_scan st.ma probes with
    | some r => some (r, st)
    | none =>
      if ¬app.isComplete then some (.MEASURED, st)
      else
        match reregister_components st.probesById st.probesByComponent
            probes.getLast? app.components with
        | none => none
        | some (pbId', pbc') =>
          some (.ACCEPTED,
            { st with
              applications := updMap st.applications app.name app
              probesById := pbId'
              probesByComponent := pbc' })

/-! ### The knowledge model: CloudState, compins, phases

The classes `CloudState`, `ManagedCompin`, `UnmanagedCompin` and
`CompinPhase` live in `cloud_controller/knowledge/model.py`, which is
not in the provided sources; they are modelled from the specification
(sections 3 and 4.6). -/

/-- Modelled from the spec: `CompinPhase` with the lifecycle order
`CREATING < INIT < READY < FINALIZING < FINISHED < FAILED` (a Python
`IntEnum`; comparisons in the code are on the numeric values). -/
inductive CompinPhase where
  | creating
  | init_
  | ready
  | finalizing
  | finished
  | failed
deriving DecidableEq, Repr

/-- The numeric value of a phase, for the `IntEnum` comparisons. -/
def CompinPhase.toNat : CompinPhase → Nat
  | .creating => 0
  | .init_ => 1
  | .ready => 2
  | .finalizing => 3
  | .finished => 4
  | .failed => 5

/-- Modelled from the spec: a compin (component instance) of the
knowledge model, keyed by application name, component name and instance
id.  `deps` are its dependency bindings, resolved to concrete instances
of the same application, kept as `(component name, instance id)` pairs;
`forceKeep` is the teardown-protection marker; `phase` is the lifecycle
phase (meaningful for managed compins). -/
structure Compin where
  app : String
  component : String
  id : String
  managed : Bool
  forceKeep : Bool
  phase : CompinPhase
  deps : List (String × String)
deriving DecidableEq, Repr

/-- Modelled from the spec: a `CloudState` is an indexed collection
{application → component → instance-id → Compin}; modelled as the list
of its compins, looked up by key. -/
def CloudState := List Compin

instance : DecidableEq CloudState := inferInstanceAs (DecidableEq (List Compin))

/-- Modelled from the spec: `CloudState.get_compin` — lookup by
application name, component name and instance id. -/
def CloudState.get_compin (s : CloudState) (app component id : String) : Option Compin :=
  s.find? fun c => c.app = app ∧ c.component = component ∧ c.id = id

/-- Modelled from the spec: `ManagedCompin.set_force_keep()` applied to
the compin stored under the given key, as a functional update of the
state. -/
def CloudState.set_force_keep (s : CloudState) (app component id : String) : CloudState :=
  s.map fun c =>
    if c.app = app ∧ c.component = component ∧ c.id = id then { c with forceKeep := true }
    else c

/-- Modelled from the spec: `Compin.set_phase` — in-place phase change of
the compin stored under the given key, as a functional update. -/
def CloudState.set_phase (s : CloudState) (app component id : String)
    (phase : CompinPhase) : CloudState :=
  s.map fun c =>
    if c.app = app ∧ c.component = component ∧ c.id = id then { c with phase := phase }
    else c

/-! ### `Analyzer` (`analysis/analyzer.py`) -/

/-- Source: `analysis/analyzer.py`, lines 40-51
(`Analyzer._mark_force_keep_compins`): for every new client known to the
Knowledge, find the same compin in the desired state and mark each of
its dependencies with `force_keep`. -/
def mark_force_keep_compins (new_clients : List Compin) (desired_state : CloudState) :
    CloudState :=
  new_clients.foldl
    (fun st client =>
      match st.get_compin client.app client.component client.id with
      | none => st
      | some compin =>
        compin.deps.foldl (fun st' d => st'.set_force_keep client.app d.1 d.2) st)
    desired_state

/-- The persistent fields of `Analyzer` relevant to
`find_new_assignment`: `_last_desired_state` (initialized to the empty
`CloudState()` in the constructor, line 29) and whether
`_longterm_result_future` is `None`. -/
structure AnalyzerState where
  lastDesiredState : CloudState
  longtermRunning : Bool

/-- `Analyzer.__init__` (lines 19-32): `_last_desired_state = CloudState()`,
`_longterm_result_future = None`. -/
def AnalyzerState.initial : AnalyzerState := ⟨([] : List Compin), false⟩

/-- The per-call environment of one `find_new_assignment` call: the
quick solver answer (`solver.find_assignment()`, `none` when the solver
found no solution within the limit), the state of the long-term future
(`ready()` and the value `get()` would return; the long-term search runs
with `NO_LIMIT` and, per the spec, yields a cloud state), and the
Knowledge's `list_new_clients()`. -/
structure AnalyzerCallInput where
  quickResult : Option CloudState
  longtermReady : Bool
  longtermValue : CloudState
  newClients : List Compin

/-- The observable outcome of one `find_new_assignment` call: the
returned cloud state, the updated analyzer fields, and whether a
long-term search was spawned (`pool.apply_async`) during the call. -/
structure AnalyzerCallOutput where
  returned : CloudState
  state : AnalyzerState
  spawned : Bool

/-- Source: `analysis/analyzer.py`, lines 53-91
(`Analyzer.find_new_assignment`): if the quick solve failed and a
long-term future exists and is ready, consume it; if none exists, spawn
one.  If the state is still undetermined, fall back to
`_last_desired_state`.  Then mark force-keep compins, store the result
as the new last desired state, and return it. -/
def find_new_assignment (st : AnalyzerState) (inp : AnalyzerCallInput) :
    AnalyzerCallOutput :=
  let step : Option CloudState × Bool × Bool :=
    match inp.quickResult with
    | some d => (some d, st.longtermRunning, false)
    | none =>
      if st.longtermRunning then
        if inp.longtermReady then (some inp.longtermValue, false, false)
        else (none, true, false)
      else (none, true, true)
  let desired := step.1.getD st.lastDesiredState
  let result := mark_force_keep_compins inp.newClients desired
  ⟨result, ⟨result, step.2.1⟩, step.2.2⟩

/-! ### `FinalizeInstanceTask` (`tasks/middleware.py`) -/

/-- Modelled from the spec: the identifying fields of a knowledge-model
`Component` used by `FinalizeInstanceTask` (`application` is the owning
application's name; the class itself is in
`cloud_controller/knowledge/model.py`, not in the provided sources). -/
structure TaskComponent where
  application : String
  name : String
  id : String
deriving DecidableEq, Repr

/-- Source: `tasks/middleware.py`, lines 34-41
(`FinalizeInstanceTask.update_model`): looks up the compin with
`get_compin(app name, component name, self._component.id)` — note that
the source passes the component's id, not `self._instance_id` — and
raises its phase to `FINALIZING` if it is currently below.  `none`
models the `AttributeError` raised when `get_compin` returns `None`
(the `instance_id` parameter is unused by the source body; it is kept to
mirror the task's constructor arguments). -/
def finalize_instance_update_model (component : TaskComponent) (_instance_id : String)
    (s : CloudState) : Option CloudState :=
  match s.get_compin component.application component.name component.id with
  | none => none
  | some compin =>
    if compin.phase.toNat < CompinPhase.finalizing.toNat then
      some (s.set_phase component.application component.name component.id .finalizing)
    else some s

/-! ### `AppDatabase` (`assessment/model.py`) -/

/-- The `AppStatus` enum (`assessment/model.py`, lines 20-25). -/
inductive AppStatus where
  | received
  | rejected
  | accepted
  | published
deriving DecidableEq, Repr

/-- An `AppEntry` (`assessment/model.py`, lines 27-35): the stored
architecture (set to `None` on publication — hence `Option`; the
architecture protobuf itself is opaque here) and the status. -/
structure AppEntry where
  architecture : Option String
  status : AppStatus
deriving DecidableEq, Repr

/-- Source: `assessment/model.py`, lines 79-93
(`AppDatabase.publish_new_architectures`): walks `_apps` in insertion
order; every `ACCEPTED` entry contributes its architecture to the
returned list, becomes `PUBLISHED`, and its stored architecture is
cleared.  Returns the collected architectures and the updated `_apps`. -/
def publish_new_architectures (apps : List (String × AppEntry)) :
    List (Option String) × List (String × AppEntry) :=
  match apps with
  | [] => ([], [])
  | (name, entry) :: rest =>
    let (archs, rest') := publish_new_architectures rest
    if entry.status = AppStatus.accepted then
      (entry.architecture :: archs, (name, ⟨none, AppStatus.published⟩) :: rest')
    else (archs, (name, entry) :: rest')

/-- `string.ascii_uppercase`, from which `random.choice` draws. -/
def ascii_uppercase : List Char := "ABCDEFGHIJKLMNOPQRSTUVWXYZ".toList

/-- One draw `random.choice(string.ascii_uppercase)`, given the letter
index produced by the random source. -/
def uppercase_letter (i : Fin 26) : Char := ascii_uppercase.getD i.val 'A'

/-- Source: `assessment/model.py`, line 52: the candidate drawn by
`''.join(random.choice(string.ascii_uppercase) for _ in range(4))`.
The random source is modelled as an infinite tape of letter indices;
`pos` is the tape position of the first of the four draws. -/
def mk_candidate (letters : Nat → Fin 26) (pos : Nat) : String :=
  ⟨(List.range 4).map fun j => uppercase_letter (letters (pos + j))⟩

/-- Source: `assessment/model.py`, lines 51-56: the retry loop of
`AppDatabase._generate_alias`, drawing candidates from the tape until
one is not in `probes_by_alias` (`used`).  The loop has no bound in
Python; `fuel` bounds the number of draws here, with `none` for
exhaustion.  Returns the fresh alias and the next tape position. -/
def generate_alias_loop (letters : Nat → Fin 26) (used : List String) :
    Nat → Nat → Option (String × Nat)
  | _, 0 => none
  | pos, fuel + 1 =>
    let candidate := mk_candidate letters pos
    if candidate ∈ used then generate_alias_loop letters used (pos + 4) fuel
    else some (candidate, pos + 4)

/-- Source: `assessment/model.py`, lines 51-56
(`AppDatabase._generate_alias`): draw until fresh, then record the alias
in `probes_by_alias` and return it. -/
def generate_alias (letters : Nat → Fin 26) (used : List String) (pos fuel : Nat) :
    Option (String × List String × Nat) :=
  match generate_alias_loop letters used pos fuel with
  | none => none
  | some (candidate, pos') => some (candidate, candidate :: used, pos')

/-- A sequence of `n` consecutive `_generate_alias` calls on the same
`AppDatabase` (as `add_app`, lines 59-66, performs one per probe),
threading the recorded-alias set and the random tape. -/
def generate_aliases (letters : Nat → Fin 26) : List String → Nat → Nat → Nat →
    Option (List String × List String)
  | used, _, _, 0 => some ([], used)
  | used, pos, fuel, n + 1 =>
    match generate_alias letters used pos fuel with
    | none => none
    | some (a, used', pos') =>
      match generate_aliases letters used' pos' fuel n with
      | none => none
      | some (as_, used'') => some (a :: as_, used'')

/-! ### Auxiliary predicates and concrete instances used by the proofs -/

def c5_state : AggregatorState :=
  { applications := fun _ => none
    probesById := fun _ => none
    probesByComponent := fun c => if c = "c0" then some ["AAAA"] else none
    ma := ⟨fun _ => false, fun _ _ => 0, fun _ => 0⟩
    mp := ⟨fun _ _ _ _ => false, fun _ _ => 0⟩ }

def c9_component : TaskComponent := ⟨"app1", "comp", "comp-1"⟩

def c9_state : CloudState :=
  [⟨"app1", "comp", "inst-7", true, false, .ready, []⟩]

def c3_actual_state : CloudState := [⟨"a", "c", "i", true, false, .ready, []⟩]

def c8_letters : Nat → Fin 26 := fun i => ⟨i % 26, Nat.mod_lt i (by decide)⟩

/-- The per-compin update performed by `CloudState.set_force_keep`. -/
def fk_upd (app component id : String) (c : Compin) : Compin :=
  if c.app = app ∧ c.component = component ∧ c.id = id then { c with forceKeep := true }
  else c

/-- `MarkedAt s a c i`: whatever compin `s` stores under the key carries
the `force_keep` flag. -/
def MarkedAt (s : CloudState) (a c i : String) : Prop :=
  ∀ x, s.get_compin a c i = some x → x.forceKeep = true

/-- The force-keep flag is the only thing marking can change: compins
with the flag stripped are the same before and after. -/
def skel (c : Compin) : Compin := { c with forceKeep := false }

def SkelEq (s s' : CloudState) : Prop :=
  ∀ a c i, (s'.get_compin a c i).map skel = (s.get_compin a c i).map skel

/-- One step of the client fold of `_mark_force_keep_compins`. -/
def mark_client_step (st : CloudState) (client : Compin) : CloudState :=
  match st.get_compin client.app client.component client.id with
  | none => st
  | some compin =>
    compin.deps.foldl (fun st' d => st'.set_force_keep client.app d.1 d.2) st

def c6_client : Compin := ⟨"a", "cl", "u1", false, false, .ready, [("m", "i1")]⟩

def c6_desired : CloudState := [c6_client, ⟨"a", "m", "i1", true, false, .ready, []⟩]

def c2_pbc : String → List String := fun c => if c = "c" then ["p", "q"] else []

def c4w_state : AggregatorState :=
  { applications := fun _ => none
    probesById := fun a => if a = "p" then some ⟨"p", "c", []⟩ else none
    probesByComponent := fun c => if c = "c" then some ["p"] else none
    ma := ⟨fun _ => false, fun _ _ => 0, fun _ => 0⟩
    mp := ⟨fun _ _ _ _ => false, fun _ _ => 0⟩ }

def c4_state : AggregatorState :=
  { applications := fun _ => none
    probesById := fun a =>
      if a = "p" then some ⟨"p", "c", [.throughput 10]⟩
      else if a = "q" then some ⟨"q", "c", []⟩ else none
    probesByComponent := fun c => if c = "c" then some ["p", "q"] else none
    ma := ⟨fun n => n == "hw1-p-q" || n == "hw1-p-p", fun _ _ => 0, fun _ => 50⟩
    mp := ⟨fun _ _ _ _ => false, fun _ _ => 0⟩ }

def c1_probe_a : Probe := ⟨"AAAA", "c1", [.throughput 5]⟩

def c1_probe_b : Probe := ⟨"BBBB", "c1", []⟩

def c1_app : Application := ⟨"app1", [⟨"c1", [c1_probe_a, c1_probe_b]⟩], true⟩

def c1_state : AggregatorState :=
  { applications := fun n => if n = "app1" then some c1_app else none
    probesById := fun a =>
      if a = "AAAA" then some c1_probe_a
      else if a = "BBBB" then some c1_probe_b else none
    probesByComponent := fun c => if c = "c1" then some ["AAAA", "BBBB"] else none
    ma := ⟨fun n => n == "default_hw-AAAA", fun _ _ => 0, fun _ => 50⟩
    mp := ⟨fun _ _ _ _ => false, fun _ _ => 0⟩ }

def c1w_probe : Probe := ⟨"CCCC", "c2", []⟩

def c1w_app : Application := ⟨"app2", [⟨"c2", [c1w_probe]⟩], true⟩

def c1w_state : AggregatorState :=
  { applications := fun n => if n = "app2" then some c1w_app else none
    probesById := fun a => if a = "CCCC" then some c1w_probe else none
    probesByComponent := fun c => if c = "c2" then some ["CCCC"] else none
    ma := ⟨fun n => n == "default_hw-CCCC", fun _ _ => 0, fun _ => 0⟩
    mp := ⟨fun _ _ _ _ => false, fun _ _ => 0⟩ }

/-! ## Theorems -/

/-! ### C10: `publish_new_architectures` -/

theorem publish_archs_fst (apps : List (String × AppEntry)) :
    (publish_new_architectures apps).1
      = (apps.filter fun e => e.2.status = AppStatus.accepted).map fun e => e.2.architecture := by
  induction apps with
  | nil => rfl
  | cons hd tl ih =>
    obtain ⟨name, entry⟩ := hd
    by_cases h : entry.status = AppStatus.accepted <;>
      simp [publish_new_architectures, h, ih]

theorem publish_archs_snd (apps : List (String × AppEntry)) :
    (publish_new_architectures apps).2
      = apps.map fun e =>
          if e.2.status = AppStatus.accepted then (e.1, ⟨none, AppStatus.published⟩) else e := by
  induction apps with
  | nil => rfl
  | cons hd tl ih =>
    obtain ⟨name, entry⟩ := hd
    by_cases h : entry.status = AppStatus.accepted <;>
      simp [publish_new_architectures, h, ih]

/-- C10: one call to `AppDatabase.publish_new_architectures` returns
exactly the stored architectures of the `ACCEPTED` entries (in map
order), turns exactly those entries into `PUBLISHED` entries with the
stored architecture cleared, leaves every other entry unchanged, and an
immediately following second call returns the empty list. -/
theorem publish_new_architectures_correct (apps : List (String × AppEntry)) :
    (publish_new_architectures apps).1
      = (apps.filter fun e => e.2.status = AppStatus.accepted).map (fun e => e.2.architecture) ∧
    (publish_new_architectures apps).2
      = apps.map (fun e =>
          if e.2.status = AppStatus.accepted then (e.1, ⟨none, AppStatus.published⟩) else e) ∧
    (publish_new_architectures (publish_new_architectures apps).2).1 = [] := by
  refine ⟨publish_archs_fst apps, publish_archs_snd apps, ?_⟩
  rw [publish_archs_fst, List.map_eq_nil_iff, List.filter_eq_nil_iff]
  intro e he
  rw [publish_archs_snd] at he
  obtain ⟨a, _, rfl⟩ := List.mem_map.mp he
  by_cases h : a.2.status = AppStatus.accepted <;> simp [h]

/-! ### C7: both throughput-prediction paths of `Predict` -/

/-- C7: for a `ThroughputContract` evaluated inside `Predict`, the
stored-measurement path answers `mean_running_time ≤ mean_request_time`
and the statistical path answers `predicted_mean ≤ mean_request_time`;
both compare the mean against the contract's `mean_request_time`. -/
theorem predict_throughput_both_paths (st : AggregatorState) (hwId measurement : String)
    (combination : List String) (meanRequestTime : Int) :
    predict_requirement st hwId measurement true combination (.throughput meanRequestTime)
        = decide (st.ma.meanRunningTime measurement ≤ meanRequestTime) ∧
    predict_requirement st hwId measurement false combination (.throughput meanRequestTime)
        = decide (st.mp.predictedMean hwId combination ≤ meanRequestTime) := by
  exact ⟨rfl, rfl⟩

/-! ### C5: the trivial single-instance default-hardware case of `Predict` -/

/-- C5: for an assignment with exactly one component of count 1 on the
default hardware id whose component is registered, `Predict` returns
`Prediction(result=True)` with no scenario request, for every contents
of the measurement store and of the statistical predictor. -/
theorem predict_trivial_single_instance (st : AggregatorState) (statEnabled : Bool)
    (componentId : String) (h : (st.probesByComponent componentId).isSome) :
    Predict st statEnabled ⟨DEFAULT_HARDWARE_ID, [(componentId, 1)]⟩ = .ok true none := by
  simp [Predict, List.headI, h]

theorem predict_trivial_single_instance_witness :
    (c5_state.probesByComponent "c0").isSome = true ∧
    Predict c5_state true ⟨DEFAULT_HARDWARE_ID, [("c0", 1)]⟩ = .ok true none :=
  ⟨by decide, predict_trivial_single_instance c5_state true "c0" (by decide)⟩

/-! ### C9: `FinalizeInstanceTask.update_model` -/

/-- C9: evaluation of the source's `update_model` at the failing input.
The task targets instance `"inst-7"` of component `"comp"` (whose
component id is `"comp-1"`); the actual state holds exactly that
instance in phase `READY`.  The claim (and the lifecycle protocol of the
spec) requires the phase of `"inst-7"` to be raised to `FINALIZING`, but
the source looks the compin up under `self._component.id`, finds
nothing, and raises (`None.phase`), modelled as `none`. -/
theorem finalize_update_model_uses_component_id :
    finalize_instance_update_model c9_component "inst-7" c9_state = none ∧
    c9_state.get_compin "app1" "comp" "inst-7"
      = some ⟨"app1", "comp", "inst-7", true, false, .ready, []⟩ := by
  constructor <;> rfl

/-! ### C3: the fast/long-term fallback of `Analyzer.find_new_assignment` -/

/-- C3 (amended): in a call where the solver returns no solution: if no
long-term search is running, exactly this call spawns one and the call
returns the (force-keep-marked) previous desired state — which is
initially the *empty* `CloudState()`, not the actual state; if one is
running and its result is ready, that result is consumed (the future is
cleared) and returned; if one is running and not ready, the previous
desired state is returned again; and in every case the returned state
becomes the new last desired state. -/
theorem find_new_assignment_no_solution (st : AnalyzerState) (inp : AnalyzerCallInput)
    (h : inp.quickResult = none) :
    (st.longtermRunning = false →
      (find_new_assignment st inp).spawned = true ∧
      (find_new_assignment st inp).state.longtermRunning = true ∧
      (find_new_assignment st inp).returned
        = mark_force_keep_compins inp.newClients st.lastDesiredState) ∧
    (st.longtermRunning = true →
      (find_new_assignment st inp).spawned = false ∧
      (inp.longtermReady = true →
        (find_new_assignment st inp).returned
          = mark_force_keep_compins inp.newClients inp.longtermValue ∧
        (find_new_assignment st inp).state.longtermRunning = false) ∧
      (inp.longtermReady = false →
        (find_new_assignment st inp).returned
          = mark_force_keep_compins inp.newClients st.lastDesiredState ∧
        (find_new_assignment st inp).state.longtermRunning = true)) ∧
    (find_new_assignment st inp).state.lastDesiredState
      = (find_new_assignment st inp).returned := by
  obtain ⟨last, running⟩ := st
  obtain ⟨quick, ready, value, clients⟩ := inp
  cases h
  cases running <;> cases ready <;>
    simp [find_new_assignment]

theorem find_new_assignment_no_solution_witness :
    (⟨(none : Option CloudState), false, ([] : List Compin),
        ([] : List Compin)⟩ : AnalyzerCallInput).quickResult = none ∧
    ((AnalyzerState.initial.longtermRunning = false →
      (find_new_assignment AnalyzerState.initial ⟨none, false, [], []⟩).spawned = true ∧
      (find_new_assignment AnalyzerState.initial ⟨none, false, [], []⟩).state.longtermRunning
        = true ∧
      (find_new_assignment AnalyzerState.initial ⟨none, false, [], []⟩).returned
        = mark_force_keep_compins [] AnalyzerState.initial.lastDesiredState) ∧
    (AnalyzerState.initial.longtermRunning = true →
      (find_new_assignment AnalyzerState.initial ⟨none, false, [], []⟩).spawned = false ∧
      ((false : Bool) = true →
        (find_new_assignment AnalyzerState.initial ⟨none, false, [], []⟩).returned
          = mark_force_keep_compins [] ([] : List Compin) ∧
        (find_new_assignment AnalyzerState.initial ⟨none, false, [], []⟩).state.longtermRunning
          = false) ∧
      ((false : Bool) = false →
        (find_new_assignment AnalyzerState.initial ⟨none, false, [], []⟩).returned
          = mark_force_keep_compins [] AnalyzerState.initial.lastDesiredState ∧
        (find_new_assignment AnalyzerState.initial ⟨none, false, [], []⟩).state.longtermRunning
          = true)) ∧
    (find_new_assignment AnalyzerState.initial ⟨none, false, [], []⟩).state.lastDesiredState
      = (find_new_assignment AnalyzerState.initial ⟨none, false, [], []⟩).returned) :=
  ⟨rfl, find_new_assignment_no_solution AnalyzerState.initial ⟨none, false, [], []⟩ rfl⟩

/-- C3 counterexample: on the first call of a freshly constructed
`Analyzer` (no previous desired state) where the solver finds no
solution, the returned state is the constructor's empty `CloudState()`,
regardless of the actual state — so it is *not* the actual state when
the latter is non-empty, contrary to the claim's "or the actual state if
there is none". -/
theorem find_new_assignment_first_call_returns_empty :
    (find_new_assignment AnalyzerState.initial ⟨none, false, [], []⟩).returned
      = ([] : CloudState) ∧
    ([] : CloudState) ≠ c3_actual_state := by
  constructor
  · rfl
  · intro h
    exact absurd (congrArg List.length h) (by decide)

/-! ### C8: alias generation (`AppDatabase._generate_alias`) -/

/-- Every candidate drawn from the tape is a 4-character string of
uppercase ASCII letters. -/
theorem mk_candidate_shape (letters : Nat → Fin 26) (pos : Nat) :
    (mk_candidate letters pos).length = 4 ∧
    ∀ ch ∈ (mk_candidate letters pos).data, 'A' ≤ ch ∧ ch ≤ 'Z' := by
  constructor
  · simp [mk_candidate, String.length]
  · intro ch hch
    simp only [mk_candidate, List.mem_map] at hch
    obtain ⟨j, _, rfl⟩ := hch
    exact (by decide : ∀ i : Fin 26, 'A' ≤ uppercase_letter i ∧ uppercase_letter i ≤ 'Z')
      (letters (pos + j))

/-- The retry loop only ever returns a tape candidate that is not in the
recorded set. -/
theorem generate_alias_loop_spec (letters : Nat → Fin 26) (used : List String) :
    ∀ fuel pos candidate pos',
      generate_alias_loop letters used pos fuel = some (candidate, pos') →
      candidate ∉ used ∧ ∃ p, candidate = mk_candidate letters p := by
  intro fuel
  induction fuel with
  | zero => intro pos candidate pos' h; exact absurd h (by simp [generate_alias_loop])
  | succ n ih =>
    intro pos candidate pos' h
    rw [generate_alias_loop] at h
    by_cases hmem : mk_candidate letters pos ∈ used
    · rw [if_pos hmem] at h
      exact ih (pos + 4) candidate pos' h
    · rw [if_neg hmem] at h
      obtain ⟨rfl, rfl⟩ : mk_candidate letters pos = candidate ∧ pos + 4 = pos' := by
        simpa using h
      exact ⟨hmem, pos, rfl⟩

/-- `_generate_alias`: the returned alias is fresh, well-shaped, and is
recorded into `probes_by_alias`. -/
theorem generate_alias_spec (letters : Nat → Fin 26) (used : List String)
    (pos fuel : Nat) (a : String) (used' : List String) (pos' : Nat)
    (h : generate_alias letters used pos fuel = some (a, used', pos')) :
    a ∉ used ∧ used' = a :: used ∧
    a.length = 4 ∧ ∀ ch ∈ a.data, 'A' ≤ ch ∧ ch ≤ 'Z' := by
  rw [generate_alias] at h
  cases hl : generate_alias_loop letters used pos fuel with
  | none => rw [hl] at h; exact absurd h (by simp)
  | some cp =>
    obtain ⟨candidate, p'⟩ := cp
    rw [hl] at h
    dsimp only at h
    simp only [Option.some.injEq, Prod.mk.injEq] at h
    obtain ⟨rfl, rfl, rfl⟩ := h
    obtain ⟨hfresh, p, hp⟩ := generate_alias_loop_spec letters used fuel pos candidate p' hl
    exact ⟨hfresh, rfl, hp ▸ mk_candidate_shape letters p⟩

/-- Strengthened induction statement for a sequence of
`_generate_alias` calls. -/
theorem generate_aliases_spec_aux (letters : Nat → Fin 26) :
    ∀ n used pos fuel out used'',
      generate_aliases letters used pos fuel n = some (out, used'') →
      (∀ a ∈ out, a.length = 4 ∧ ∀ ch ∈ a.data, 'A' ≤ ch ∧ ch ≤ 'Z') ∧
      out.Nodup ∧ (∀ a ∈ out, a ∉ used) := by
  intro n
  induction n with
  | zero =>
    intro used pos fuel out used'' h
    obtain ⟨rfl, rfl⟩ : ([] : List String) = out ∧ used = used'' := by
      simpa [generate_aliases] using h
    simp
  | succ n ih =>
    intro used pos fuel out used'' h
    rw [generate_aliases] at h
    cases h1 : generate_alias letters used pos fuel with
    | none => rw [h1] at h; exact absurd h (by simp)
    | some v =>
      obtain ⟨a, used', pos'⟩ := v
      rw [h1] at h
      dsimp only at h
      cases h2 : generate_aliases letters used' pos' fuel n with
      | none => rw [h2] at h; exact absurd h (by simp)
      | some w =>
        obtain ⟨rest, usedEnd⟩ := w
        rw [h2] at h
        dsimp only at h
        simp only [Option.some.injEq, Prod.mk.injEq] at h
        obtain ⟨rfl, rfl⟩ := h
        obtain ⟨hfresh, rfl, hshape⟩ := generate_alias_spec letters used pos fuel a _ pos' h1
        obtain ⟨ihShape, ihNodup, ihFresh⟩ := ih (a :: used) pos' fuel rest usedEnd h2
        refine ⟨?_, ?_, ?_⟩
        · intro x hx
          rcases List.mem_cons.mp hx with rfl | hx
          · exact hshape
          · exact ihShape x hx
        · exact List.nodup_cons.mpr
            ⟨fun hmem => (ihFresh a hmem) (List.mem_cons_self a used), ihNodup⟩
        · intro x hx
          rcases List.mem_cons.mp hx with rfl | hx
          · exact hfresh
          · exact fun hxu => (ihFresh x hx) (List.mem_cons_of_mem a hxu)

/-- C8: every alias returned by `AppDatabase._generate_alias` is a
4-character string of uppercase ASCII letters that is not in the
recorded alias set at the time of the call (the loop retries until the
candidate is fresh and then records it), so any sequence of generated
aliases is duplicate-free and disjoint from the initially recorded
aliases — for every behaviour of the random source. -/
theorem generate_aliases_no_duplicates (letters : Nat → Fin 26) (used : List String)
    (pos fuel n : Nat) (out used'' : List String)
    (h : generate_aliases letters used pos fuel n = some (out, used'')) :
    (∀ a ∈ out, a.length = 4 ∧ ∀ ch ∈ a.data, 'A' ≤ ch ∧ ch ≤ 'Z') ∧
    out.Nodup ∧ (∀ a ∈ out, a ∉ used) :=
  generate_aliases_spec_aux letters n used pos fuel out used'' h

theorem generate_aliases_no_duplicates_witness :
    ((∀ a ∈ ["ABCD", "EFGH", "IJKL"], a.length = 4 ∧
        ∀ ch ∈ a.data, 'A' ≤ ch ∧ ch ≤ 'Z') ∧
      (["ABCD", "EFGH", "IJKL"] : List String).Nodup ∧
      (∀ a ∈ ["ABCD", "EFGH", "IJKL"], a ∉ (["AAAA"] : List String))) :=
  generate_aliases_no_duplicates c8_letters ["AAAA"] 0 5 3
    ["ABCD", "EFGH", "IJKL"] ["IJKL", "EFGH", "ABCD", "AAAA"] (by decide)

/-! ### C6: force-keep marking of new clients' dependencies -/

theorem fk_upd_app (app component id : String) (c : Compin) :
    (fk_upd app component id c).app = c.app := by
  unfold fk_upd; split <;> rfl

theorem fk_upd_component (app component id : String) (c : Compin) :
    (fk_upd app component id c).component = c.component := by
  unfold fk_upd; split <;> rfl

theorem fk_upd_id (app component id : String) (c : Compin) :
    (fk_upd app component id c).id = c.id := by
  unfold fk_upd; split <;> rfl

theorem fk_upd_deps (app component id : String) (c : Compin) :
    (fk_upd app component id c).deps = c.deps := by
  unfold fk_upd; split <;> rfl

/-- Looking a compin up after `set_force_keep` is looking it up before
and applying the flag update. -/
theorem get_compin_set_force_keep (s : CloudState) (a c i a' c' i' : String) :
    (s.set_force_keep a c i).get_compin a' c' i'
      = (s.get_compin a' c' i').map (fk_upd a c i) := by
  show ((s.map (fk_upd a c i)).find? _) = _
  rw [List.find?_map]
  have hp : ((fun c : Compin => decide (c.app = a' ∧ c.component = c' ∧ c.id = i'))
        ∘ fk_upd a c i)
      = fun c : Compin => decide (c.app = a' ∧ c.component = c' ∧ c.id = i') := by
    funext x
    simp only [Function.comp_apply, fk_upd_app, fk_upd_component, fk_upd_id]
  rw [hp]
  rfl

theorem markedAt_set_self (s : CloudState) (a c i : String) :
    MarkedAt (s.set_force_keep a c i) a c i := by
  intro x hx
  rw [get_compin_set_force_keep] at hx
  cases hy : s.get_compin a c i with
  | none => rw [hy] at hx; exact absurd hx (by simp)
  | some y =>
    rw [hy] at hx
    obtain rfl : fk_upd a c i y = x := by simpa using hx
    have hkey := List.find?_some hy
    have : y.app = a ∧ y.component = c ∧ y.id = i := by simpa using hkey
    unfold fk_upd
    rw [if_pos this]

theorem markedAt_set_mono (s : CloudState) (a c i a' c' i' : String)
    (h : MarkedAt s a' c' i') : MarkedAt (s.set_force_keep a c i) a' c' i' := by
  intro x hx
  rw [get_compin_set_force_keep] at hx
  cases hy : s.get_compin a' c' i' with
  | none => rw [hy] at hx; exact absurd hx (by simp)
  | some y =>
    rw [hy] at hx
    obtain rfl : fk_upd a c i y = x := by simpa using hx
    have hy' := h y hy
    unfold fk_upd
    split
    · rfl
    · exact hy'

theorem skelEq_refl (s : CloudState) : SkelEq s s := fun _ _ _ => rfl

theorem skelEq_trans {s t u : CloudState} (h1 : SkelEq s t) (h2 : SkelEq t u) :
    SkelEq s u := fun a c i => (h2 a c i).trans (h1 a c i)

theorem skelEq_set_force_keep (s : CloudState) (a c i : String) :
    SkelEq s (s.set_force_keep a c i) := by
  intro a' c' i'
  rw [get_compin_set_force_keep, Option.map_map]
  congr 1
  funext x
  show skel (fk_upd a c i x) = skel x
  unfold fk_upd skel
  split <;> rfl

/-- The dependency fold of `_mark_force_keep_compins` for one client:
effect and invariants. -/
theorem dep_fold_spec (appName : String) (deps : List (String × String)) :
    ∀ s : CloudState,
      (let s' := deps.foldl (fun st d => st.set_force_keep appName d.1 d.2) s
       SkelEq s s' ∧
       (∀ a c i, MarkedAt s a c i → MarkedAt s' a c i) ∧
       (∀ d ∈ deps, MarkedAt s' appName d.1 d.2)) := by
  induction deps with
  | nil => intro s; exact ⟨skelEq_refl s, fun _ _ _ h => h, by simp⟩
  | cons hd tl ih =>
    intro s
    obtain ⟨ihSkel, ihMono, ihMark⟩ := ih (s.set_force_keep appName hd.1 hd.2)
    refine ⟨skelEq_trans (skelEq_set_force_keep s appName hd.1 hd.2) ihSkel, ?_, ?_⟩
    · intro a c i h
      exact ihMono a c i (markedAt_set_mono s appName hd.1 hd.2 a c i h)
    · intro d hd'
      rcases List.mem_cons.mp hd' with rfl | hd'
      · exact ihMono appName d.1 d.2 (markedAt_set_self s appName d.1 d.2)
      · exact ihMark d hd'

theorem mark_client_step_spec (st : CloudState) (client : Compin) :
    SkelEq st (mark_client_step st client) ∧
    (∀ a c i, MarkedAt st a c i → MarkedAt (mark_client_step st client) a c i) ∧
    (∀ compin, st.get_compin client.app client.component client.id = some compin →
      ∀ d ∈ compin.deps, MarkedAt (mark_client_step st client) client.app d.1 d.2) := by
  unfold mark_client_step
  cases h : st.get_compin client.app client.component client.id with
  | none =>
    exact ⟨skelEq_refl st, fun _ _ _ hm => hm, fun compin hc => by simp [h] at hc⟩
  | some compin =>
    obtain ⟨hSkel, hMono, hMark⟩ := dep_fold_spec client.app compin.deps st
    refine ⟨hSkel, hMono, ?_⟩
    intro compin' hc
    obtain rfl : compin = compin' := Option.some.inj hc
    exact hMark

theorem mark_force_keep_eq_foldl (new_clients : List Compin) (desired : CloudState) :
    mark_force_keep_compins new_clients desired
      = new_clients.foldl mark_client_step desired := by
  unfold mark_force_keep_compins mark_client_step
  rfl

/-- Dependencies survive marking: a compin found under a key after
marking has the same `deps` as the one found there before. -/
theorem skelEq_deps {s s' : CloudState} (h : SkelEq s s') (a c i : String)
    {x : Compin} (hx : s'.get_compin a c i = some x) :
    ∃ y, s.get_compin a c i = some y ∧ y.deps = x.deps := by
  have := h a c i
  rw [hx] at this
  cases hy : s.get_compin a c i with
  | none => rw [hy] at this; exact absurd this (by simp)
  | some y =>
    rw [hy] at this
    refine ⟨y, rfl, ?_⟩
    have hs : skel x = skel y := by simpa using this
    have hdeps : (skel y).deps = (skel x).deps := by rw [hs]
    simpa [skel] using hdeps

/-- Client-fold invariant: after folding `mark_client_step` over a
client list, every listed client's dependencies (as found in the final
state) are marked. -/
theorem client_fold_spec (clients : List Compin) :
    ∀ s : CloudState,
      (let s' := clients.foldl mark_client_step s
       SkelEq s s' ∧
       (∀ a c i, MarkedAt s a c i → MarkedAt s' a c i) ∧
       (∀ client ∈ clients, ∀ x,
          s'.get_compin client.app client.component client.id = some x →
          ∀ d ∈ x.deps, MarkedAt s' client.app d.1 d.2)) := by
  induction clients with
  | nil => intro s; exact ⟨skelEq_refl s, fun _ _ _ h => h, by simp⟩
  | cons hd tl ih =>
    intro s
    obtain ⟨stepSkel, stepMono, stepMark⟩ := mark_client_step_spec s hd
    obtain ⟨ihSkel, ihMono, ihMark⟩ := ih (mark_client_step s hd)
    refine ⟨skelEq_trans stepSkel ihSkel, ?_, ?_⟩
    · intro a c i h
      exact ihMono a c i (stepMono a c i h)
    · intro client hc x hx d hd'
      rcases List.mem_cons.mp hc with rfl | hc
      · obtain ⟨y, hy, hydeps⟩ := skelEq_deps ihSkel client.app client.component client.id hx
        obtain ⟨z, hz, hzdeps⟩ :=
          skelEq_deps stepSkel client.app client.component client.id hy
        have hdz : d ∈ z.deps := by
          rw [hzdeps, hydeps]; exact hd'
        exact ihMono client.app d.1 d.2 (stepMark z hz d hdz)
      · exact ihMark client hc x hx d hd'

/-- C6: in the CloudState returned by `Analyzer.find_new_assignment`
(which is always `_mark_force_keep_compins` applied to the chosen
desired state), every dependency of every new client that is present in
the returned state is marked `force_keep`: here, directly for the
marking pass — for any client of `list_new_clients` whose compin exists
in the result, every compin the result stores under one of its
dependency keys carries the flag. -/
theorem new_client_dependencies_force_keep (new_clients : List Compin)
    (desired : CloudState) (client : Compin) (hc : client ∈ new_clients)
    (x : Compin)
    (hx : (mark_force_keep_compins new_clients desired).get_compin
        client.app client.component client.id = some x)
    (d : String × String) (hd : d ∈ x.deps) (y : Compin)
    (hy : (mark_force_keep_compins new_clients desired).get_compin client.app d.1 d.2
        = some y) :
    y.forceKeep = true := by
  rw [mark_force_keep_eq_foldl] at hx hy
  obtain ⟨_, _, hmark⟩ := client_fold_spec new_clients desired
  exact hmark client hc x hx d hd y hy

theorem new_client_dependencies_force_keep_witness :
    (⟨"a", "m", "i1", true, true, .ready, []⟩ : Compin).forceKeep = true :=
  new_client_dependencies_force_keep [c6_client] c6_desired c6_client (by decide)
    c6_client (by decide) ("m", "i1") (by decide)
    ⟨"a", "m", "i1", true, true, .ready, []⟩ (by decide)

/-! ### C2: soundness of `_generate_combinations` -/

/-- Every list produced by the inner probe generator extends the
accumulator with elements of the probe list and has total length equal
to the requested size. -/
theorem generate_probe_combinations_mem (probes : List String) :
    ∀ (size : Int) (acc combo : List String),
      combo ∈ generate_probe_combinations probes size acc →
      (∃ ext, combo = acc ++ ext ∧ ∀ x ∈ ext, x ∈ probes) ∧
      (combo.length : Int) = size := by
  induction probes with
  | nil =>
    intro size acc combo h
    rw [generate_probe_combinations] at h
    by_cases hc : (acc.length : Int) = size
    · rw [if_pos hc] at h
      obtain rfl : combo = acc := by simpa using h
      exact ⟨⟨[], by simp, by simp⟩, hc⟩
    · rw [if_neg hc] at h
      exact absurd h (by simp)
  | cons p rest ih =>
    intro size acc combo h
    rw [generate_probe_combinations] at h
    by_cases hc : (acc.length : Int) = size
    · rw [if_pos hc] at h
      obtain rfl : combo = acc := by simpa using h
      exact ⟨⟨[], by simp, by simp⟩, hc⟩
    · rw [if_neg hc] at h
      simp only [List.mem_flatMap, List.mem_range] at h
      obtain ⟨i, _, hcombo⟩ := h
      by_cases hcond : (acc.length : Int) + i ≤ size
      · rw [if_pos hcond] at hcombo
        obtain ⟨⟨ext, rfl, hext⟩, hlen⟩ := ih size (acc ++ List.replicate i p) _ hcombo
        refine ⟨⟨List.replicate i p ++ ext, by simp, ?_⟩, hlen⟩
        intro x hx
        rcases List.mem_append.mp hx with hx | hx
        · rw [List.eq_of_mem_replicate hx]
          exact List.mem_cons_self _ _
        · exact List.mem_cons_of_mem _ (hext x hx)
      · rw [if_neg hcond] at hcombo
        exact absurd hcombo (by simp)

/-- Every list produced by the component generator extends the
accumulator with a `segments_ok` tail. -/
theorem generate_component_combinations_mem (pbc : String → List String) (main : String) :
    ∀ (comps : List (String × Int)) (acc combo : List String),
      combo ∈ generate_component_combinations pbc main comps acc →
      ∃ rest, combo = acc ++ rest ∧ segments_ok pbc main comps rest := by
  intro comps
  induction comps with
  | nil =>
    intro acc combo h
    obtain rfl : combo = acc := by
      simpa [generate_component_combinations] using h
    exact ⟨[], by simp, rfl⟩
  | cons ck tl ih =>
    obtain ⟨c, k⟩ := ck
    intro acc combo h
    simp only [generate_component_combinations, List.mem_flatMap] at h
    obtain ⟨pc, hpc, hcombo⟩ := h
    obtain ⟨⟨ext, hext_eq, hext⟩, hlen⟩ :=
      generate_probe_combinations_mem (pbc c) _ [] pc hpc
    obtain ⟨rest', rfl, hsegs⟩ := ih (acc ++ pc) _ hcombo
    refine ⟨pc ++ rest', by simp, pc, rest', rfl, hlen, ?_, hsegs⟩
    intro x hx
    have hpc_ext : pc = ext := by simpa using hext_eq
    exact hext x (hpc_ext ▸ hx)

/-- When the main component does not occur among the components, the
segments sum to exactly the counts. -/
theorem segments_ok_length_nomain (pbc : String → List String) (main : String) :
    ∀ (comps : List (String × Int)) (rest : List String),
      segments_ok pbc main comps rest → main ∉ comps.map Prod.fst →
      (rest.length : Int) = (comps.map Prod.snd).sum := by
  intro comps
  induction comps with
  | nil =>
    intro rest h _
    rw [show rest = [] from h]
    simp
  | cons ck tl ih =>
    obtain ⟨c, k⟩ := ck
    intro rest h hmain
    obtain ⟨seg, tail_, rfl, hlen, _, hsegs⟩ := h
    have hc : ¬(c = main) := fun hcm => hmain (by simp [hcm])
    rw [if_neg hc] at hlen
    have htl := ih tail_ hsegs (fun hm => hmain (by simp [hm]))
    simp only [List.length_append, List.map_cons, List.sum_cons]
    push_cast
    omega

/-- When the main component occurs exactly once among the components,
the segments sum to the counts minus one. -/
theorem segments_ok_length_main (pbc : String → List String) (main : String) :
    ∀ (comps : List (String × Int)) (rest : List String),
      segments_ok pbc main comps rest → main ∈ comps.map Prod.fst →
      (comps.map Prod.fst).Nodup →
      (rest.length : Int) = (comps.map Prod.snd).sum - 1 := by
  intro comps
  induction comps with
  | nil => intro rest _ hmain; exact absurd hmain (by simp)
  | cons ck tl ih =>
    obtain ⟨c, k⟩ := ck
    intro rest h hmain hnodup
    obtain ⟨seg, tail_, rfl, hlen, _, hsegs⟩ := h
    simp only [List.map_cons, List.nodup_cons] at hnodup
    by_cases hc : c = main
    · rw [if_pos hc] at hlen
      have htl := segments_ok_length_nomain pbc main tl tail_ hsegs (hc ▸ hnodup.1)
      simp only [List.length_append, List.map_cons, List.sum_cons]
      push_cast
      omega
    · rw [if_neg hc] at hlen
      have hmain' : main ∈ tl.map Prod.fst := by
        rcases List.mem_cons.mp hmain with hm | hm
        · exact absurd hm.symm hc
        · exact hm
      have htl := ih tail_ hsegs hmain' hnodup.2
      simp only [List.length_append, List.map_cons, List.sum_cons]
      push_cast
      omega

/-- C2: for an assignment with distinct, registered component ids and
positive counts, every probe-id list yielded by
`_generate_combinations` has length Σcount, starts with a probe of the
chosen main component, and its remainder decomposes into per-component
segments drawn with replacement from each component's probe set, with
the main component's count reduced by one. -/
theorem generate_combinations_sound (pbc : String → List String)
    (assignment : List (String × Int))
    (hnodup : (assignment.map Prod.fst).Nodup)
    (_hpos : ∀ ck ∈ assignment, 0 < ck.2)
    (combo : List String) (hmem : combo ∈ generate_combinations pbc assignment) :
    ∃ main, main ∈ assignment.map Prod.fst ∧
      ∃ head tail_, combo = head :: tail_ ∧ head ∈ pbc main ∧
        (combo.length : Int) = (assignment.map Prod.snd).sum ∧
        segments_ok pbc main assignment tail_ := by
  simp only [generate_combinations, List.mem_flatMap, List.mem_map] at hmem
  obtain ⟨ck, hck, full, hfull, head, hhead, rfl⟩ := hmem
  obtain ⟨rest, hrest, hsegs⟩ := generate_component_combinations_mem pbc ck.1 assignment [] full hfull
  obtain rfl : full = rest := by simpa using hrest
  have hmain : ck.1 ∈ assignment.map Prod.fst := List.mem_map.mpr ⟨ck, hck, rfl⟩
  have hlen := segments_ok_length_main pbc ck.1 assignment full hsegs hmain hnodup
  refine ⟨ck.1, hmain, head, full, rfl, hhead, ?_, hsegs⟩
  simp only [List.length_cons]
  push_cast
  omega

theorem generate_combinations_sound_witness :
    ((([("c", (2 : Int))] : List (String × Int)).map Prod.fst).Nodup ∧
      (∀ ck ∈ ([("c", (2 : Int))] : List (String × Int)), 0 < ck.2) ∧
      (["p", "q"] : List String) ∈ generate_combinations c2_pbc [("c", 2)]) ∧
    (∃ main, main ∈ ([("c", (2 : Int))] : List (String × Int)).map Prod.fst ∧
      ∃ head tail_, (["p", "q"] : List String) = head :: tail_ ∧ head ∈ c2_pbc main ∧
        (((["p", "q"] : List String).length : Int)
            = (([("c", (2 : Int))] : List (String × Int)).map Prod.snd).sum) ∧
        segments_ok c2_pbc main [("c", 2)] tail_) :=
  ⟨⟨by decide, by decide, by decide⟩,
    generate_combinations_sound c2_pbc [("c", 2)] (by decide) (by decide)
      ["p", "q"] (by decide)⟩

/-! ### C4: missing measurement with statistical prediction disabled -/

/-- Characterization of the `Predict` loop with statistical prediction
disabled: it succeeds when no combination is rejected, and otherwise
returns `false` together with a scenario request for the *first*
rejected combination. -/
theorem predict_loop_disabled_char (st : AggregatorState) (hwId : String) :
    ∀ L : List (List String),
      (∀ combo ∈ L, combo ≠ [] ∧
        (st.ma.hasMeasurement (compose_measurement_name hwId combo) = true →
          (st.probesById combo.headI).isSome)) →
      (L.find? (combo_rejected st hwId) = none →
        predict_loop st false hwId L = .ok true none) ∧
      (∀ c0, L.find? (combo_rejected st hwId) = some c0 →
        predict_loop st false hwId L = .ok false (some (hwId, c0.headI, c0.length))) := by
  intro L
  induction L with
  | nil => intro _; exact ⟨fun _ => rfl, fun c0 h => by simp at h⟩
  | cons combo rest ih =>
    intro hyp
    obtain ⟨hne, hpid⟩ := hyp combo (List.mem_cons_self _ _)
    obtain ⟨head, t, rfl⟩ := List.exists_cons_of_ne_nil hne
    rw [List.headI_cons] at hpid
    have ihr := ih fun c hc => hyp c (List.mem_cons_of_mem _ hc)
    by_cases hmeas :
        st.ma.hasMeasurement (compose_measurement_name hwId (head :: t)) = true
    · obtain ⟨probe, hprobe⟩ := Option.isSome_iff_exists.mp (hpid hmeas)
      cases hall : probe.requirements.all
          (predict_requirement st hwId (compose_measurement_name hwId (head :: t)) true
            (head :: t)) with
      | true =>
        have hallP := List.all_eq_true.mp hall
        have hnoex : ¬∃ x ∈ probe.requirements,
            predict_requirement st hwId (compose_measurement_name hwId (head :: t)) true
              (head :: t) x = false := by
          rintro ⟨x, hx, hfx⟩
          rw [hallP x hx] at hfx
          simp at hfx
        have hrej : combo_rejected st hwId (head :: t) = false := by
          simp [combo_rejected, hmeas, hprobe, hnoex]
        have hloop : predict_loop st false hwId ((head :: t) :: rest)
            = predict_loop st false hwId rest := by
          simp only [predict_loop, hprobe, hmeas]
          simp only [List.all_eq_true]
          rw [if_neg (by simp), if_pos hallP]
        constructor
        · intro hfind
          rw [List.find?_cons_of_neg _ (by simp [hrej])] at hfind
          rw [hloop]
          exact ihr.1 hfind
        · intro c0 hfind
          rw [List.find?_cons_of_neg _ (by simp [hrej])] at hfind
          rw [hloop]
          exact ihr.2 c0 hfind
      | false =>
        obtain ⟨x0, hx0, hfx0⟩ := List.all_eq_false.mp hall
        have hfx0' : predict_requirement st hwId
            (compose_measurement_name hwId (head :: t)) true (head :: t) x0 = false := by
          simpa using hfx0
        have hexP : ∃ x ∈ probe.requirements,
            predict_requirement st hwId (compose_measurement_name hwId (head :: t)) true
              (head :: t) x = false := ⟨x0, hx0, hfx0'⟩
        have hnotall : ¬∀ x ∈ probe.requirements,
            predict_requirement st hwId (compose_measurement_name hwId (head :: t)) true
              (head :: t) x = true := by
          intro hca
          rw [hca x0 hx0] at hfx0'
          simp at hfx0'
        have hrej : combo_rejected st hwId (head :: t) = true := by
          simp [combo_rejected, hmeas, hprobe, hexP]
        have hloop : predict_loop st false hwId ((head :: t) :: rest)
            = .ok false (some (hwId, head, (head :: t).length)) := by
          simp [predict_loop, hmeas, hprobe, hnotall]
        constructor
        · intro hfind
          rw [List.find?_cons_of_pos _ hrej] at hfind
          exact absurd hfind (by simp)
        · intro c0 hfind
          rw [List.find?_cons_of_pos _ hrej] at hfind
          obtain rfl : head :: t = c0 := Option.some.inj hfind
          rw [hloop]
          rfl
    · have hmeas' : st.ma.hasMeasurement (compose_measurement_name hwId (head :: t))
          = false := by
        simpa using hmeas
      have hrej : combo_rejected st hwId (head :: t) = true := by
        simp [combo_rejected, hmeas']
      have hloop : predict_loop st false hwId ((head :: t) :: rest)
          = .ok false (some (hwId, head, (head :: t).length)) := by
        simp [predict_loop, hmeas']
      constructor
      · intro hfind
        rw [List.find?_cons_of_pos _ hrej] at hfind
        exact absurd hfind (by simp)
      · intro c0 hfind
        rw [List.find?_cons_of_pos _ hrej] at hfind
        obtain rfl : head :: t = c0 := Option.some.inj hfind
        rw [hloop]
        rfl

/-- C4 (amended): with statistical prediction disabled, when some
generated combination lacks a recorded measurement, `Predict` returns
`result=False` (not an error) and requests scenario generation for the
*first* combination, in generation order, that lacks a measurement or
fails a requirement — which is the missing combination itself only when
no earlier measured combination fails. -/
theorem predict_disabled_missing_measurement (st : AggregatorState)
    (request : AssignmentPb) (assignment : List (String × Int))
    (hshape : ¬(request.components.length = 1 ∧ (request.components.headI).2 = 1 ∧
      request.hwId = DEFAULT_HARDWARE_ID))
    (hreg : assignment_from_pb st request.components = some assignment)
    (hL : ∀ combo ∈ generate_combinations
        (fun c => (st.probesByComponent c).getD []) assignment,
      combo ≠ [] ∧
        (st.ma.hasMeasurement (compose_measurement_name request.hwId combo) = true →
          (st.probesById combo.headI).isSome))
    (hmiss : ∃ combo ∈ generate_combinations
        (fun c => (st.probesByComponent c).getD []) assignment,
      st.ma.hasMeasurement (compose_measurement_name request.hwId combo) = false) :
    ∃ c0, (generate_combinations (fun c => (st.probesByComponent c).getD [])
          assignment).find? (combo_rejected st request.hwId) = some c0 ∧
      Predict st false request = .ok false (some (request.hwId, c0.headI, c0.length)) ∧
      combo_rejected st request.hwId c0 = true := by
  set L := generate_combinations (fun c => (st.probesByComponent c).getD []) assignment
    with hLdef
  have hfind : (L.find? (combo_rejected st request.hwId)).isSome := by
    rw [List.find?_isSome]
    obtain ⟨combo, hcombo, hm⟩ := hmiss
    exact ⟨combo, hcombo, by simp [combo_rejected, hm]⟩
  obtain ⟨c0, hc0⟩ := Option.isSome_iff_exists.mp hfind
  refine ⟨c0, hc0, ?_, List.find?_some hc0⟩
  have hpred : Predict st false request = predict_loop st false request.hwId L := by
    rw [Predict, if_neg hshape, hreg]
  rw [hpred]
  exact (predict_loop_disabled_char st request.hwId L hL).2 c0 hc0

theorem predict_disabled_missing_measurement_witness :
    ∃ c0, (generate_combinations (fun c => (c4w_state.probesByComponent c).getD [])
          [("c", 2)]).find? (combo_rejected c4w_state "hw1") = some c0 ∧
      Predict c4w_state false ⟨"hw1", [("c", 2)]⟩
        = .ok false (some ("hw1", c0.headI, c0.length)) ∧
      combo_rejected c4w_state "hw1" c0 = true :=
  predict_disabled_missing_measurement c4w_state ⟨"hw1", [("c", 2)]⟩ [("c", 2)]
    (by decide) (by decide) (by decide) (by decide)

/-- C4 counterexample: statistical prediction is disabled and the
combinations with controlled probe `"q"` have no recorded measurement,
yet `Predict` requests scenario generation for controlled probe `"p"`
— the first *measured* combination, whose throughput contract fails —
and not for any missing combination. -/
theorem predict_disabled_requests_measured_combination :
    Predict c4_state false ⟨"hw1", [("c", 2)]⟩ = .ok false (some ("hw1", "p", 2)) ∧
    (∃ combo ∈ generate_combinations
        (fun c => (c4_state.probesByComponent c).getD []) [("c", 2)],
      c4_state.ma.hasMeasurement (compose_measurement_name "hw1" combo) = false) ∧
    (∀ combo ∈ generate_combinations
        (fun c => (c4_state.probesByComponent c).getD []) [("c", 2)],
      c4_state.ma.hasMeasurement (compose_measurement_name "hw1" combo) = false →
        combo.headI = "q") ∧
    ("p" : String) ≠ "q" ∧
    c4_state.ma.hasMeasurement (compose_measurement_name "hw1" ["p", "q"]) = true := by
  refine ⟨?_, ?_, ?_, ?_, ?_⟩ <;> decide

/-! ### C1: `JudgeApp` -/

/-- The judging scan is the first issue raised by any probe, in scan
order. -/
theorem judge_scan_eq_findSome (ma : MeasurementAggregatorModel) :
    ∀ probes : List Probe,
      judge_scan ma probes = probes.findSome? (probe_issue ma) := by
  intro probes
  induction probes with
  | nil => rfl
  | cons p rest ih =>
    rw [judge_scan, List.findSome?_cons]
    cases hmeas : ma.hasMeasurement (compose_measurement_name DEFAULT_HARDWARE_ID [p.alias_]) with
    | false => simp [probe_issue, hmeas]
    | true =>
      cases hall : p.requirements.all
          (judge_requirement ma (compose_measurement_name DEFAULT_HARDWARE_ID [p.alias_])) with
      | false => simp [probe_issue, hmeas, hall]
      | true => simp [probe_issue, hmeas, hall, ih]

/-- Effect and success of the inner re-registration loop. -/
theorem reregister_probes_spec :
    ∀ (probes : List Probe) (pbId : String → Option Probe)
      (pbc : String → Option (List String)) (stale : Option Probe),
      (∀ p ∈ probes, (pbId p.alias_).isSome) →
      (∀ p ∈ probes, (pbc p.componentId).isSome) →
      (probes.map (·.alias_)).Nodup →
      ∃ pbId' pbc' stale',
        reregister_probes pbId pbc stale probes = some (pbId', pbc', stale') ∧
        (∀ k, k ∉ probes.map (·.alias_) → pbId' k = pbId k) ∧
        (∀ p ∈ probes, pbId' p.alias_ = some p) ∧
        (∀ k, (pbId k).isSome → (pbId' k).isSome) ∧
        (∀ k, (pbc k).isSome → (pbc' k).isSome) ∧
        (stale.isSome → stale'.isSome) ∧
        (probes ≠ [] → stale'.isSome) := by
  intro probes
  induction probes with
  | nil =>
    intro pbId pbc stale _ _ _
    exact ⟨pbId, pbc, stale, rfl, fun _ _ => rfl, by simp, fun _ h => h, fun _ h => h,
      fun h => h, fun h => absurd rfl h⟩
  | cons p rest ih =>
    intro pbId pbc stale hA hB hnd
    have hpsome : (pbId p.alias_).isSome := hA p (List.mem_cons_self _ _)
    have hpnone : (pbId p.alias_).isNone = false := by
      rw [Option.isNone_eq_false_iff]
      exact hpsome
    obtain ⟨aliases, haliases⟩ :=
      Option.isSome_iff_exists.mp (hB p (List.mem_cons_self _ _))
    simp only [List.map_cons, List.nodup_cons] at hnd
    have hA1 : ∀ q ∈ rest, ((updMap pbId p.alias_ p) q.alias_).isSome := by
      intro q hq
      unfold updMap
      split
      · rfl
      · exact hA q (List.mem_cons_of_mem _ hq)
    have hB1 : ∀ q ∈ rest,
        ((updMap pbc p.componentId (aliases.insert p.alias_)) q.componentId).isSome := by
      intro q hq
      unfold updMap
      split
      · rfl
      · exact hB q (List.mem_cons_of_mem _ hq)
    obtain ⟨pbId', pbc', stale', heq, hframe, hset, hmonoId, hmonoC, hstale, _⟩ :=
      ih (updMap pbId p.alias_ p) (updMap pbc p.componentId (aliases.insert p.alias_))
        (some p) hA1 hB1 hnd.2
    refine ⟨pbId', pbc', stale', ?_, ?_, ?_, ?_, ?_, ?_, ?_⟩
    · rw [reregister_probes, hpnone]
      simp only [Bool.false_eq_true, if_false, haliases]
      exact heq
    · intro k hk
      simp only [List.map_cons, List.mem_cons, not_or] at hk
      rw [hframe k hk.2]
      unfold updMap
      rw [if_neg hk.1]
    · intro q hq
      rcases List.mem_cons.mp hq with rfl | hq
      · rw [hframe q.alias_ hnd.1]
        unfold updMap
        rw [if_pos rfl]
      · exact hset q hq
    · intro k hk
      apply hmonoId
      unfold updMap
      split
      · rfl
      · exact hk
    · intro k hk
      apply hmonoC
      unfold updMap
      split
      · rfl
      · exact hk
    · intro _
      exact hstale rfl
    · intro _
      exact hstale rfl

/-- Effect and success of the outer re-registration loop of the
`ACCEPTED` branch. -/
theorem reregister_components_spec :
    ∀ (comps : List AppComponent) (pbId : String → Option Probe)
      (pbc : String → Option (List String)) (stale : Option Probe),
      (∀ p ∈ comps.flatMap (·.probes), (pbId p.alias_).isSome) →
      (∀ p ∈ comps.flatMap (·.probes), (pbc p.componentId).isSome) →
      ((comps.flatMap (·.probes)).map (·.alias_)).Nodup →
      (stale.isSome ∨ comps = []) →
      ∃ pbId' pbc',
        reregister_components pbId pbc stale comps = some (pbId', pbc') ∧
        (∀ k, k ∉ (comps.flatMap (·.probes)).map (·.alias_) → pbId' k = pbId k) ∧
        (∀ p ∈ comps.flatMap (·.probes), pbId' p.alias_ = some p) := by
  intro comps
  induction comps with
  | nil =>
    intro pbId pbc stale _ _ _ _
    exact ⟨pbId, pbc, rfl, fun _ _ => rfl, by simp⟩
  | cons c rest ih =>
    intro pbId pbc stale hA hB hnd hs
    obtain ⟨sp, rfl⟩ : ∃ sp, stale = some sp := by
      rcases hs with hsome | habs
      · exact Option.isSome_iff_exists.mp hsome
      · exact absurd habs (by simp)
    have hflat : (c :: rest).flatMap (·.probes) = c.probes ++ rest.flatMap (·.probes) := by
      simp
    rw [hflat] at hA hB hnd
    have hndApp := hnd
    rw [List.map_append, List.nodup_append] at hndApp
    have hA_c : ∀ p ∈ c.probes, (pbId p.alias_).isSome := fun p hp =>
      hA p (List.mem_append_left _ hp)
    have hB_c : ∀ p ∈ c.probes,
        ((updMap pbc sp.componentId []) p.componentId).isSome := by
      intro p hp
      unfold updMap
      split
      · rfl
      · exact hB p (List.mem_append_left _ hp)
    obtain ⟨pbId1, pbc1, stale1, heq1, hframe1, hset1, hmono1, hmonoC1, hstale1, _⟩ :=
      reregister_probes_spec c.probes pbId (updMap pbc sp.componentId []) (some sp)
        hA_c hB_c hndApp.1
    have hA_r : ∀ p ∈ rest.flatMap (·.probes), (pbId1 p.alias_).isSome := fun p hp =>
      hmono1 p.alias_ (hA p (List.mem_append_right _ hp))
    have hB_r : ∀ p ∈ rest.flatMap (·.probes), (pbc1 p.componentId).isSome := by
      intro p hp
      apply hmonoC1
      unfold updMap
      split
      · rfl
      · exact hB p (List.mem_append_right _ hp)
    obtain ⟨pbId', pbc', heq2, hframe2, hset2⟩ :=
      ih pbId1 pbc1 stale1 hA_r hB_r hndApp.2.1 (Or.inl (hstale1 rfl))
    refine ⟨pbId', pbc', ?_, ?_, ?_⟩
    · rw [reregister_components, heq1]
      exact heq2
    · intro k hk
      rw [hflat, List.map_append, List.mem_append, not_or] at hk
      rw [hframe2 k hk.2, hframe1 k hk.1]
    · intro p hp
      rw [hflat] at hp
      rcases List.mem_append.mp hp with hp | hp
      · have hdisj : p.alias_ ∉ (rest.flatMap (·.probes)).map (·.alias_) := by
          intro hmem
          exact hndApp.2.2 (List.mem_map_of_mem _ hp) hmem
        rw [hframe2 p.alias_ hdisj]
        exact hset1 p hp
      · exact hset2 p hp

/-- C1 (amended): `JudgeApp` returns `NEEDS_DATA` for an unregistered
application; otherwise it scans the probes in component order and
returns the first issue found — `NEEDS_DATA` at the first probe lacking
an isolation measurement at the default hardware id, `REJECTED` at the
first probe with a failing requirement, whichever occurs first in scan
order (not with global priority of `NEEDS_DATA` over `REJECTED`);
otherwise `MEASURED` when the application is not complete; otherwise it
re-registers every probe of every component (each is indexed under its
alias afterwards) and returns `ACCEPTED`.  Hypotheses: every probe's
alias is already registered (required by the `assert` in the accepted
branch), every probe's component id has a `_probes_by_component` entry
(otherwise the accepted branch raises `KeyError`), aliases are unique,
and the probe list is non-empty unless there are no components
(otherwise the accepted branch raises `NameError` on the stale loop
variable). -/
theorem judge_app_cases (st : AggregatorState) (app : Application)
    (hA : ∀ p ∈ app.components.flatMap (·.probes), (st.probesById p.alias_).isSome)
    (hB : ∀ p ∈ app.components.flatMap (·.probes),
      (st.probesByComponent p.componentId).isSome)
    (hnd : ((app.components.flatMap (·.probes)).map (·.alias_)).Nodup)
    (hne : app.components.flatMap (·.probes) ≠ [] ∨ app.components = []) :
    ((st.applications app.name).isNone → JudgeApp st app = some (.NEEDS_DATA, st)) ∧
    ((st.applications app.name).isSome →
      (∀ r, (app.components.flatMap (·.probes)).findSome? (probe_issue st.ma) = some r →
        JudgeApp st app = some (r, st)) ∧
      ((app.components.flatMap (·.probes)).findSome? (probe_issue st.ma) = none →
        app.isComplete = false → JudgeApp st app = some (.MEASURED, st)) ∧
      ((app.components.flatMap (·.probes)).findSome? (probe_issue st.ma) = none →
        app.isComplete = true →
        ∃ st', JudgeApp st app = some (.ACCEPTED, st') ∧
          ∀ p ∈ app.components.flatMap (·.probes), st'.probesById p.alias_ = some p)) := by
  constructor
  · intro h
    rw [JudgeApp, if_pos h]
  · intro hreg
    have hnone : (st.applications app.name).isNone = false := by
      rw [Option.isNone_eq_false_iff]
      exact hreg
    refine ⟨?_, ?_, ?_⟩
    · intro r hr
      rw [JudgeApp, if_neg (by rw [hnone]; simp)]
      dsimp only
      rw [judge_scan_eq_findSome, hr]
    · intro hscan hcomplete
      rw [JudgeApp, if_neg (by rw [hnone]; simp)]
      dsimp only
      rw [judge_scan_eq_findSome, hscan]
      simp [hcomplete]
    · intro hscan hcomplete
      have hs : (app.components.flatMap (·.probes)).getLast?.isSome ∨
          app.components = [] := by
        rcases hne with hprobes | hcomps
        · exact Or.inl (by rwa [List.getLast?_isSome])
        · exact Or.inr hcomps
      obtain ⟨pbId', pbc', heq, _, hset⟩ :=
        reregister_components_spec app.components st.probesById st.probesByComponent
          (app.components.flatMap (·.probes)).getLast? hA hB hnd hs
      refine ⟨{ st with
          applications := updMap st.applications app.name app
          probesById := pbId'
          probesByComponent := pbc' }, ?_, hset⟩
      rw [JudgeApp, if_neg (by rw [hnone]; simp)]
      dsimp only
      rw [judge_scan_eq_findSome, hscan]
      simp only [hcomplete, Bool.not_true, Bool.false_eq_true, if_false, heq]
      rw [if_neg (by simp)]

/-- C1 counterexample: probe `"AAAA"` has an isolation measurement but a
failing throughput contract, and the later probe `"BBBB"` has no
isolation measurement.  The claim's priority ("if some probe lacks a
measurement, return NEEDS_DATA; otherwise ... REJECTED") demands
`NEEDS_DATA`, but `JudgeApp` interleaves the two checks per probe and
returns `REJECTED`. -/
theorem judge_app_rejects_before_needs_data :
    (JudgeApp c1_state c1_app).map (fun rs => rs.1) = some JudgeResult.REJECTED ∧
    c1_probe_b ∈ c1_app.components.flatMap (·.probes) ∧
    c1_state.ma.hasMeasurement
      (compose_measurement_name DEFAULT_HARDWARE_ID [c1_probe_b.alias_]) = false := by
  refine ⟨?_, by decide, by decide⟩
  rfl

theorem judge_app_cases_witness :
    ((∀ p ∈ c1w_app.components.flatMap (·.probes), (c1w_state.probesById p.alias_).isSome) ∧
      (∀ p ∈ c1w_app.components.flatMap (·.probes),
        (c1w_state.probesByComponent p.componentId).isSome) ∧
      ((c1w_app.components.flatMap (·.probes)).map (·.alias_)).Nodup ∧
      (c1w_app.components.flatMap (·.probes) ≠ [] ∨ c1w_app.components = [])) ∧
    (((c1w_state.applications c1w_app.name).isNone →
        JudgeApp c1w_state c1w_app = some (.NEEDS_DATA, c1w_state)) ∧
      ((c1w_state.applications c1w_app.name).isSome →
        (∀ r, (c1w_app.components.flatMap (·.probes)).findSome? (probe_issue c1w_state.ma)
            = some r → JudgeApp c1w_state c1w_app = some (r, c1w_state)) ∧
        ((c1w_app.components.flatMap (·.probes)).findSome? (probe_issue c1w_state.ma) = none →
          c1w_app.isComplete = false →
          JudgeApp c1w_state c1w_app = some (.MEASURED, c1w_state)) ∧
        ((c1w_app.components.flatMap (·.probes)).findSome? (probe_issue c1w_state.ma) = none →
          c1w_app.isComplete = true →
          ∃ st', JudgeApp c1w_state c1w_app = some (.ACCEPTED, st') ∧
            ∀ p ∈ c1w_app.components.flatMap (·.probes),
              st'.probesById p.alias_ = some p))) :=
  ⟨⟨by decide, by decide, by decide, by decide⟩,
    judge_app_cases c1w_state c1w_app (by decide) (by decide) (by decide) (by decide)⟩

end QosCloud
